import Mathlib

/-!
Shallow embedding of the video-upload pipeline of
learn-file-storage-s3-golang-starter: the upload handler
(handler_upload_video.go), the ffprobe-based aspect-ratio classifier
(ffprobe.go) and the ffmpeg fast-start remuxer (ffmpeg.go), together with
theorems about the frozen claims.

Go strings are modelled as lists of characters.  The outcomes of external
effects (database reads, subprocess runs, the object store, the signer,
randomness) are supplied by an environment record, and the handler is a
pure function from that environment to a response together with a trace of
the side effects it performed, in order.
-/

namespace Tubely

/-- Go strings, modelled as lists of characters. -/
abbrev GoStr := List Char

/-- The characters Go's unicode.IsSpace accepts in the Latin-1 range (the
fast path of the Go implementation; the stored references and keys of this
repository never leave ASCII). -/
def isGoSpace (c : Char) : Bool :=
  c == ' ' || c == '\t' || c == '\n' || c == '\u000b' || c == '\u000c' ||
    c == '\r' || c == '\u0085' || c == '\u00a0'

/-- Leading-whitespace trim, as in strings.TrimSpace. -/
def goTrimLeft (s : GoStr) : GoStr := s.dropWhile isGoSpace

/-- Trailing-whitespace trim, as in strings.TrimSpace. -/
def goTrimRight (s : GoStr) : GoStr := (s.reverse.dropWhile isGoSpace).reverse

/-- strings.TrimSpace: drop leading and trailing whitespace. -/
def goTrimSpace (s : GoStr) : GoStr := goTrimRight (goTrimLeft s)

/-- strings.SplitN(s, ",", 2), in the only way the handler uses it: `none`
when the string has no comma (Go: len(parts) != 2), otherwise the parts
before and after the first comma. -/
def splitFirstComma : GoStr → Option (GoStr × GoStr)
  | [] => none
  | c :: rest =>
    if c = ',' then some ([], rest)
    else
      match splitFirstComma rest with
      | none => none
      | some (p0, p1) => some (c :: p0, p1)

/-- One stream record of ffprobe's JSON output (ffprobe.go, ffprobeStream):
the integer width and height fields. -/
structure FfStream where
  width : Int
  height : Int
  deriving DecidableEq, Repr

/-- The scan in getVideoAspectRatio (ffprobe.go): the first stream whose
width and height are both strictly positive; `none` when there is none
(which includes the empty stream list). -/
def firstValidStream : List FfStream → Option FfStream
  | [] => none
  | s :: rest => if 0 < s.width ∧ 0 < s.height then some s else firstValidStream rest

/-- The string "16:9" returned by getVideoAspectRatio. -/
def str169 : GoStr := "16:9".data

/-- The string "9:16" returned by getVideoAspectRatio. -/
def str916 : GoStr := "9:16".data

/-- The string "other" returned by getVideoAspectRatio. -/
def strOther : GoStr := "other".data

/-- math.Abs, on the rationals that model the float64 arithmetic of
ffprobe.go. -/
def goAbs (q : ℚ) : ℚ := if q < 0 then -q else q

/-- getVideoAspectRatio (ffprobe.go).  The subprocess run and the JSON
decoding are summarised by the argument: `none` means ffprobe failed or its
output did not decode, `some streams` is the decoded stream list.  The
float64 arithmetic of the source (ratio = w/h, compared against 16.0/9.0
and 9.0/16.0 with absolute tolerance 0.02) is modelled exactly over ℚ;
the two computations agree except when the ratio is within a few units in
the last place of a comparison boundary, many orders of magnitude closer
than any input considered here.  Returns `none` exactly where the Go
function returns a non-nil error. -/
def getVideoAspectRatio (probe : Option (List FfStream)) : Option GoStr :=
  match probe with
  | none => none
  | some streams =>
    match firstValidStream streams with
    | none => none
    | some s =>
      let ratio : ℚ := (s.width : ℚ) / (s.height : ℚ)
      if goAbs (ratio - 16 / 9) ≤ 1 / 50 then some str169
      else if goAbs (ratio - 9 / 16) ≤ 1 / 50 then some str916
      else some strOther

/-- Geometry 1920x1080 has ratio exactly 16/9 and is classified "16:9". -/
theorem aspect_1920_1080 :
    getVideoAspectRatio (some [⟨1920, 1080⟩]) = some str169 := by
  unfold getVideoAspectRatio firstValidStream
  norm_num [goAbs]
example : getVideoAspectRatio (some [⟨1080, 1920⟩]) = some str916 := by
  unfold getVideoAspectRatio firstValidStream
  norm_num [goAbs, str169, str916]
example : getVideoAspectRatio (some [⟨608, 1080⟩]) = some str916 := by
  unfold getVideoAspectRatio firstValidStream
  norm_num [goAbs, str169, str916]
example : getVideoAspectRatio (some [⟨1750, 1000⟩]) = some strOther := by
  unfold getVideoAspectRatio firstValidStream
  norm_num [goAbs, str169, str916, strOther]
example : getVideoAspectRatio (some [⟨0, 0⟩]) = none := by decide
example : goTrimSpace " a b ".data = "a b".data := by decide
example : splitFirstComma "ab,cd,e".data = some ("ab".data, "cd,e".data) := by decide

/-- A video record (internal/database.Video), restricted to the fields the
upload handler reads or writes: the ID (uuid.Nil modelled as 0), the owner
ID, and the nullable video_url column. -/
structure Video where
  id : Nat
  userID : Nat
  videoURL : Option GoStr
  deriving DecidableEq, Repr

/-- Result of dbVideoToSignedVideo, mirroring Go's (database.Video, error)
pair: `err v` is a non-nil error together with the returned record, `ok v`
a nil error with the returned record. -/
inductive SignOutcome where
  | err (v : Video)
  | ok (v : Video)
  deriving DecidableEq, Repr

/-- The reference-parsing portion of dbVideoToSignedVideo
(handler_upload_video.go lines 171-183): nil or whitespace-only URL,
a URL with no comma (Go: len(parts) != 2 after SplitN with limit 2), or an
empty trimmed bucket or key, are all rejected; otherwise the trimmed parts
around the first comma are returned. -/
def parseStoredRef : Option GoStr → Option (GoStr × GoStr)
  | none => none
  | some url =>
    if goTrimSpace url = [] then none
    else
      match splitFirstComma url with
      | none => none
      | some (p0, p1) =>
        if goTrimSpace p0 = [] ∨ goTrimSpace p1 = [] then none
        else some (goTrimSpace p0, goTrimSpace p1)

/-- dbVideoToSignedVideo (handler_upload_video.go): parse the stored
"bucket,key" reference, request a presigned URL, and substitute it in the
returned record.  The presigner (generatePresignedURL with the fixed
15-minute expiry) is supplied as an oracle from bucket and key to
`some url` on success and `none` on signing failure.  Every error path
returns the input record unchanged, as the Go function does. -/
def dbVideoToSignedVideo (presign : GoStr → GoStr → Option GoStr)
    (video : Video) : SignOutcome :=
  match parseStoredRef video.videoURL with
  | none => .err video
  | some (bucket, key) =>
    match presign bucket key with
    | none => .err video
    | some signedURL => .ok { video with videoURL := some signedURL }

/-- The string "video/mp4", the single allowed media type. -/
def mp4Str : GoStr := "video/mp4".data

/-- The key prefix "landscape" chosen for aspect "16:9". -/
def strLandscape : GoStr := "landscape".data

/-- The key prefix "portrait" chosen for aspect "9:16". -/
def strPortrait : GoStr := "portrait".data

/-- The ".mp4" extension of derived object keys. -/
def dotMp4 : GoStr := ".mp4".data

/-- The ".processing" suffix ffmpeg.go appends to build the remux output
path. -/
def procSuffix : GoStr := ".processing".data

/-- The sixteen lowercase hexadecimal digit characters, in value order. -/
def hexChars : GoStr := "0123456789abcdef".data

/-- One lowercase hexadecimal digit; for n < 16 this is Go's %x digit. -/
def hexDigit (n : Nat) : Char := hexChars.getD n '0'

/-- Go's %x formatting of one byte: two lowercase hexadecimal digits. -/
def hexByte (b : Nat) : GoStr := [hexDigit (b / 16 % 16), hexDigit (b % 16)]

/-- Go's %x formatting of a byte slice: the bytes' hex pairs concatenated. -/
def hexEncode (bs : List Nat) : GoStr := (bs.map hexByte).flatten

/-- processVideoForFastStart (ffmpeg.go): the output path is the input path
with ".processing" appended; on ffmpeg success (supplied as the `remuxOk`
oracle) that path is returned, on failure an error and no path.  The model
treats the output artifact as existing only on tool success, matching the
source's view that the second artifact is only produced (and trusted) when
the tool exits cleanly. -/
def processVideoForFastStart (remuxOk : Bool) (filePath : GoStr) : Option GoStr :=
  if remuxOk then some (filePath ++ procSuffix) else none

/-- The prefix selection of handlerUploadVideo (handler_upload_video.go
lines 125-133): "other" when getVideoAspectRatio errors, otherwise
"landscape" for "16:9", "portrait" for "9:16", and "other" for anything
else. -/
def keyPrefixOf (probe : Option (List FfStream)) : GoStr :=
  match getVideoAspectRatio probe with
  | none => strOther
  | some aspect =>
    if aspect = str169 then strLandscape
    else if aspect = str916 then strPortrait
    else strOther

/-- The derived object key: fmt.Sprintf("%s/%x.mp4", prefix, rnd)
(handler_upload_video.go line 135). -/
def deriveS3Key (probe : Option (List FfStream)) (rnd : List Nat) : GoStr :=
  keyPrefixOf probe ++ '/' :: (hexEncode rnd ++ dotMp4)

/-- The stored-reference encoding: fmt.Sprintf("%s,%s", bucket, key)
(handler_upload_video.go line 151). -/
def encodeRef (bucket key : GoStr) : GoStr := bucket ++ ',' :: key

/-- video.VideoURL = &u: the record with its videoURL field set. -/
def withURL (v : Video) (u : GoStr) : Video := { v with videoURL := some u }

/-- Server configuration, restricted to what the modelled code reads. -/
structure Cfg where
  s3Bucket : GoStr

/-- Outcomes of the external effects of one request, in the order the
handler performs them.  `none` or `false` means the corresponding call
returned an error.  `mediaParse` is the result of mime.ParseMediaType on
the file part's Content-Type header; `probeStreams` is the decoded ffprobe
stream list (`none` when the tool or the JSON decoding failed); `presign`
is the presigner shared with dbVideoToSignedVideo. -/
structure Env where
  videoIDParse : Option Nat
  bearerToken : Option GoStr
  jwtUserID : Option Nat
  dbVideo : Option Video
  parseFormOk : Bool
  formFileOk : Bool
  mediaParse : Option GoStr
  tempPath : Option GoStr
  copyOk : Bool
  seekOk : Bool
  remuxOk : Bool
  openProcessedOk : Bool
  randBytes : Option (List Nat)
  probeStreams : Option (List FfStream)
  putOk : Bool
  updateOk : Bool
  presign : GoStr → GoStr → Option GoStr

/-- One observable side effect of the handler.  File closes are omitted;
`putObject` and `dbUpdate` record attempts (the call is made whether or not
it then succeeds). -/
inductive Event where
  | createTemp (path : GoStr)
  | writeFile (path : GoStr)
  | removeFile (path : GoStr)
  | putObject (bucket key body contentType : GoStr)
  | dbUpdate (v : Video)
  deriving DecidableEq, Repr

/-- The handler's response status, its side-effect trace in order, and the
JSON body (the video record) when one is returned with status 200. -/
structure HResult where
  status : Nat
  events : List Event
  body : Option Video
  deriving DecidableEq, Repr

/-- handlerUploadVideo (handler_upload_video.go), step for step.  Go's
deferred os.Remove calls are modelled by appending the corresponding
removeFile events on every return path reached after the defer is
registered, in Go's last-in-first-out defer order (the processed artifact
is removed before the staged original). -/
def handlerUploadVideo (cfg : Cfg) (env : Env) : HResult :=
  match env.videoIDParse with
  | none => ⟨400, [], none⟩
  | some _videoID =>
  match env.bearerToken with
  | none => ⟨401, [], none⟩
  | some _token =>
  match env.jwtUserID with
  | none => ⟨401, [], none⟩
  | some userID =>
  match env.dbVideo with
  | none => ⟨500, [], none⟩
  | some video =>
  if video.id = 0 then ⟨404, [], none⟩
  else if video.userID ≠ userID then ⟨401, [], none⟩
  else if env.parseFormOk = false then ⟨400, [], none⟩
  else if env.formFileOk = false then ⟨400, [], none⟩
  else
  match env.mediaParse with
  | none => ⟨400, [], none⟩
  | some mediaType =>
  if mediaType = [] then ⟨400, [], none⟩
  else if mediaType ≠ mp4Str then ⟨400, [], none⟩
  else
  match env.tempPath with
  | none => ⟨500, [], none⟩
  | some tmp =>
  if env.copyOk = false then ⟨500, [.createTemp tmp, .removeFile tmp], none⟩
  else if env.seekOk = false then ⟨500, [.createTemp tmp, .removeFile tmp], none⟩
  else
  match processVideoForFastStart env.remuxOk tmp with
  | none => ⟨500, [.createTemp tmp, .removeFile tmp], none⟩
  | some processedPath =>
  if env.openProcessedOk = false then
    ⟨500, [.createTemp tmp, .writeFile processedPath,
           .removeFile processedPath, .removeFile tmp], none⟩
  else
  match env.randBytes with
  | none =>
    ⟨500, [.createTemp tmp, .writeFile processedPath,
           .removeFile processedPath, .removeFile tmp], none⟩
  | some rnd =>
  if env.putOk = false then
    ⟨500, [.createTemp tmp, .writeFile processedPath,
           .putObject cfg.s3Bucket (deriveS3Key env.probeStreams rnd) processedPath mediaType,
           .removeFile processedPath, .removeFile tmp], none⟩
  else
  if env.updateOk = false then
    ⟨500, [.createTemp tmp, .writeFile processedPath,
           .putObject cfg.s3Bucket (deriveS3Key env.probeStreams rnd) processedPath mediaType,
           .dbUpdate (withURL video (encodeRef cfg.s3Bucket (deriveS3Key env.probeStreams rnd))),
           .removeFile processedPath, .removeFile tmp], none⟩
  else
  match dbVideoToSignedVideo env.presign
      (withURL video (encodeRef cfg.s3Bucket (deriveS3Key env.probeStreams rnd))) with
  | .err _ =>
    ⟨500, [.createTemp tmp, .writeFile processedPath,
           .putObject cfg.s3Bucket (deriveS3Key env.probeStreams rnd) processedPath mediaType,
           .dbUpdate (withURL video (encodeRef cfg.s3Bucket (deriveS3Key env.probeStreams rnd))),
           .removeFile processedPath, .removeFile tmp], none⟩
  | .ok signedVideo =>
    ⟨200, [.createTemp tmp, .writeFile processedPath,
           .putObject cfg.s3Bucket (deriveS3Key env.probeStreams rnd) processedPath mediaType,
           .dbUpdate (withURL video (encodeRef cfg.s3Bucket (deriveS3Key env.probeStreams rnd))),
           .removeFile processedPath, .removeFile tmp], some signedVideo⟩

/-- Paths of local files the handler created, in trace order. -/
def createdFiles : List Event → List GoStr
  | [] => []
  | .createTemp p :: es => p :: createdFiles es
  | .writeFile p :: es => p :: createdFiles es
  | _ :: es => createdFiles es

/-- Paths of local files the handler removed, in trace order. -/
def removedFiles : List Event → List GoStr
  | [] => []
  | .removeFile p :: es => p :: removedFiles es
  | _ :: es => removedFiles es

/-- The (bucket, key, body, contentType) tuples of the object-store upload
calls in a trace, in order. -/
def putCalls : List Event → List (GoStr × GoStr × GoStr × GoStr)
  | [] => []
  | .putObject b k body ct :: es => (b, k, body, ct) :: putCalls es
  | _ :: es => putCalls es

/-- The videoURL values written to the metadata store, in trace order. -/
def dbUpdateURLs : List Event → List (Option GoStr)
  | [] => []
  | .dbUpdate v :: es => v.videoURL :: dbUpdateURLs es
  | _ :: es => dbUpdateURLs es

/-- s starts with p. -/
def beginsWith (p s : GoStr) : Prop := s.take p.length = p


/-! ### Classification lemmas (claims C1, C2, C6) -/

/-- A stream selected by the scan satisfies the scan's own guard. -/
theorem firstValidStream_pos {ss : List FfStream} {s : FfStream}
    (h : firstValidStream ss = some s) : 0 < s.width ∧ 0 < s.height := by
  induction ss with
  | nil => simp [firstValidStream] at h
  | cons a rest ih =>
    by_cases hc : 0 < a.width ∧ 0 < a.height
    · rw [firstValidStream, if_pos hc] at h
      cases h
      exact hc
    · rw [firstValidStream, if_neg hc] at h
      exact ih h

/-- The two tolerance windows of the classifier are disjoint: no ratio is
within 0.02 of both 16/9 and 9/16. -/
theorem tol_windows_disjoint (r : ℚ) :
    ¬ (goAbs (r - 16 / 9) ≤ 1 / 50 ∧ goAbs (r - 9 / 16) ≤ 1 / 50) := by
  rintro ⟨h1, h2⟩
  unfold goAbs at h1 h2
  split_ifs at h1 h2 <;> linarith

/-- Modelled from the spec''s words only, for comparison with the code: a
ratio is within two percent of a target when it differs from the target by
at most 2/100 of the target (relative tolerance). -/
def specWithinTwoPercent (r target : ℚ) : Prop :=
  goAbs (r - target) ≤ 2 / 100 * target

/-- claim C2, counterexample: geometry 1750x1000 has ratio 7/4, which is
within two percent of 16/9 in the relative sense the claim states
(|7/4 - 16/9| = 1/36 ≤ 32/900), yet the code classifies it "other",
because the source compares against the absolute constant 0.02
(1/36 > 1/50).  So classification does not yield the wide class exactly
when the ratio is within 2% of 16/9. -/
theorem claim_C2_counterexample :
    specWithinTwoPercent ((1750 : ℚ) / 1000) (16 / 9)
    ∧ getVideoAspectRatio (some [⟨1750, 1000⟩]) = some strOther
    ∧ strOther ≠ str169 := by
  refine ⟨by unfold specWithinTwoPercent goAbs; norm_num, ?_, by decide⟩
  unfold getVideoAspectRatio firstValidStream
  norm_num [goAbs, str169, str916, strOther]

/-- claim C2, amended: for the stream the classifier selects (the first
with strictly positive width and height), classification yields "16:9"
exactly when |w/h - 16/9| ≤ 0.02 with 0.02 an absolute difference bound
(not a bound relative to the target ratio), yields "9:16" exactly when
|w/h - 9/16| ≤ 0.02, and "other" exactly in the remaining cases; both
boundaries are inclusive, and the two windows are mutually exclusive. -/
theorem claim_C2_amended (w h : Int) (ss : List FfStream)
    (hv : firstValidStream ss = some ⟨w, h⟩) :
    (getVideoAspectRatio (some ss) = some str169 ↔
      goAbs ((w : ℚ) / (h : ℚ) - 16 / 9) ≤ 1 / 50)
    ∧ (getVideoAspectRatio (some ss) = some str916 ↔
      goAbs ((w : ℚ) / (h : ℚ) - 9 / 16) ≤ 1 / 50)
    ∧ (getVideoAspectRatio (some ss) = some strOther ↔
      (¬ goAbs ((w : ℚ) / (h : ℚ) - 16 / 9) ≤ 1 / 50
        ∧ ¬ goAbs ((w : ℚ) / (h : ℚ) - 9 / 16) ≤ 1 / 50)) := by
  have hne1 : str169 ≠ str916 := by decide
  have hne2 : str169 ≠ strOther := by decide
  have hne3 : str916 ≠ strOther := by decide
  simp only [getVideoAspectRatio, hv]
  split_ifs with h1 h2
  · exact ⟨iff_of_true rfl h1,
      iff_of_false (by simp [hne1])
        (fun hc => tol_windows_disjoint _ ⟨h1, hc⟩),
      iff_of_false (by simp [hne2]) (fun hcon => hcon.1 h1)⟩
  · exact ⟨iff_of_false (by simp [Ne.symm hne1]) h1,
      iff_of_true rfl h2,
      iff_of_false (by simp [hne3]) (fun hcon => hcon.2 h2)⟩
  · exact ⟨iff_of_false (by simp [Ne.symm hne2]) h1,
      iff_of_false (by simp [Ne.symm hne3]) h2,
      iff_of_true rfl ⟨h1, h2⟩⟩

/-- claim C2, witness: the amended theorem applied to geometry 1920x1080,
whose ratio is exactly 16/9. -/
theorem claim_C2_witness :
    getVideoAspectRatio (some [⟨1920, 1080⟩]) = some str169 ↔
      goAbs (((1920 : Int) : ℚ) / ((1080 : Int) : ℚ) - 16 / 9) ≤ 1 / 50 :=
  (claim_C2_amended 1920 1080 [⟨1920, 1080⟩] (by decide)).1

/-! ### String lemmas for the stored-reference encoding -/

/-- Splitting succeeds with `none` exactly on comma-free strings. -/
theorem splitFirstComma_eq_none_iff {s : GoStr} :
    splitFirstComma s = none ↔ ',' ∉ s := by
  induction s with
  | nil => simp [splitFirstComma]
  | cons c rest ih =>
    by_cases hc : c = ','
    · subst hc
      simp [splitFirstComma]
    · rw [splitFirstComma, if_neg hc]
      cases hsplit : splitFirstComma rest with
      | none =>
        simp only [List.mem_cons]
        constructor
        · intro _ hmem
          rcases hmem with h1 | h1
          · exact hc h1.symm
          · exact (ih.mp hsplit) h1
        · intro _
          trivial
      | some p =>
        obtain ⟨p0, p1⟩ := p
        simp only [List.mem_cons]
        constructor
        · intro habs
          exact absurd habs (by simp)
        · intro hnm
          have : ',' ∈ rest := by
            by_contra hrest
            rw [ih.mpr hrest] at hsplit
            cases hsplit
          exact absurd (Or.inr this) hnm

/-- Splitting a comma-free part followed by a comma recovers the parts. -/
theorem splitFirstComma_append {b : GoStr} (k : GoStr) (hb : ',' ∉ b) :
    splitFirstComma (b ++ ',' :: k) = some (b, k) := by
  induction b with
  | nil => simp [splitFirstComma]
  | cons a b ih =>
    have ha : a ≠ ',' := fun hc => hb (hc ▸ List.mem_cons_self a b)
    have hb' : ',' ∉ b := fun hc => hb (List.mem_cons_of_mem a hc)
    rw [List.cons_append, splitFirstComma, if_neg ha, ih hb']

/-- What a successful split means: the first part is comma-free and the
input is the two parts joined by a comma. -/
theorem splitFirstComma_eq_some {s p0 p1 : GoStr}
    (h : splitFirstComma s = some (p0, p1)) :
    ',' ∉ p0 ∧ s = p0 ++ ',' :: p1 := by
  induction s generalizing p0 p1 with
  | nil => simp [splitFirstComma] at h
  | cons c rest ih =>
    by_cases hc : c = ','
    · rw [splitFirstComma, if_pos hc] at h
      simp only [Option.some.injEq, Prod.mk.injEq] at h
      obtain ⟨rfl, rfl⟩ := h
      subst hc
      exact ⟨by simp, rfl⟩
    · rw [splitFirstComma, if_neg hc] at h
      cases hsplit : splitFirstComma rest with
      | none =>
        rw [hsplit] at h
        cases h
      | some q =>
        obtain ⟨q0, q1⟩ := q
        rw [hsplit] at h
        simp only [Option.some.injEq, Prod.mk.injEq] at h
        obtain ⟨rfl, rfl⟩ := h
        obtain ⟨hq0, hrest⟩ := ih hsplit
        constructor
        · intro hmem
          rcases List.mem_cons.mp hmem with h1 | h1
          · exact hc h1.symm
          · exact hq0 h1
        · rw [List.cons_append, hrest]

/-- Trimming yields the empty string exactly on all-whitespace strings. -/
theorem goTrimSpace_eq_nil_iff {s : GoStr} :
    goTrimSpace s = [] ↔ ∀ c ∈ s, isGoSpace c = true := by
  unfold goTrimSpace goTrimRight goTrimLeft
  rw [List.reverse_eq_nil_iff, List.dropWhile_eq_nil_iff]
  constructor
  · intro hall c hc
    by_cases hcs : isGoSpace c = true
    · exact hcs
    · have hmem : c ∈ s.dropWhile isGoSpace := by
        have hsplitmem : c ∈ s.takeWhile isGoSpace ++ s.dropWhile isGoSpace := by
          rw [List.takeWhile_append_dropWhile]
          exact hc
        rcases List.mem_append.mp hsplitmem with h1 | h1
        · exact absurd (List.mem_takeWhile_imp h1) hcs
        · exact h1
      exact hall c (List.mem_reverse.mpr hmem)
  · intro hall c hc
    exact hall c ((List.dropWhile_sublist _).subset (List.mem_reverse.mp hc))

/-- Trimming only removes characters. -/
theorem mem_of_mem_goTrimSpace {c : Char} {s : GoStr}
    (h : c ∈ goTrimSpace s) : c ∈ s := by
  unfold goTrimSpace goTrimRight goTrimLeft at h
  rw [List.mem_reverse] at h
  have h2 := (List.dropWhile_sublist _).subset h
  rw [List.mem_reverse] at h2
  exact (List.dropWhile_sublist _).subset h2

/-- Encoding a non-empty comma-free trimmed bucket with a non-empty trimmed
key and parsing it back recovers the pair. -/
theorem parseStoredRef_encode {b k : GoStr} (hbne : b ≠ []) (hbc : ',' ∉ b)
    (hkne : k ≠ []) (htb : goTrimSpace b = b) (htk : goTrimSpace k = k) :
    parseStoredRef (some (encodeRef b k)) = some (b, k) := by
  have hnotnil : ¬ goTrimSpace (b ++ ',' :: k) = [] := by
    rw [goTrimSpace_eq_nil_iff]
    intro hall
    have hcomma := hall ',' (by simp)
    simp [isGoSpace] at hcomma
  simp only [parseStoredRef, encodeRef]
  rw [if_neg hnotnil]
  simp only [splitFirstComma_append k hbc, htb, htk]
  rw [if_neg (by simp [hbne, hkne])]

/-- If the bucket itself contains a comma, parsing the encoding never
returns the original pair. -/
theorem parseStoredRef_comma_bucket {b k : GoStr} (hbc : ',' ∈ b) :
    parseStoredRef (some (encodeRef b k)) ≠ some (b, k) := by
  intro h
  simp only [parseStoredRef, encodeRef] at h
  split at h
  · cases h
  · cases hsplit : splitFirstComma (b ++ ',' :: k) with
    | none =>
      simp only [hsplit] at h
      exact Option.noConfusion h
    | some p =>
      obtain ⟨p0, p1⟩ := p
      simp only [hsplit] at h
      split at h
      · simp at h
      · simp only [Option.some.injEq, Prod.mk.injEq] at h
        obtain ⟨hb, _⟩ := h
        have hmem : ',' ∈ goTrimSpace p0 := by rw [hb]; exact hbc
        exact (splitFirstComma_eq_some hsplit).1 (mem_of_mem_goTrimSpace hmem)

/-! ### Claim C8: round-trip of the stored-reference encoding -/

/-- claim C8, counterexample: the claim admits the empty bucket (it is
comma-free, and neither component has surrounding whitespace, and the key
"k" is non-empty), but the parser of dbVideoToSignedVideo rejects the
encoding ",k" because the trimmed location component is empty, so the
round trip does not recover the pair there. -/
theorem claim_C8_counterexample :
    (',' ∉ ([] : GoStr)) ∧ goTrimSpace ([] : GoStr) = [] ∧ ['k'] ≠ ([] : GoStr)
    ∧ goTrimSpace ['k'] = ['k']
    ∧ parseStoredRef (some (encodeRef [] ['k'])) ≠ some ([], ['k']) := by
  decide

/-- claim C8, amended: for every NON-EMPTY bucket containing no comma and
every non-empty key, neither with surrounding whitespace, parsing the
encoded string recovers exactly the original pair; and whenever the bucket
contains a literal comma, the round trip does not recover the original
pair. -/
theorem claim_C8_amended (b k : GoStr) (hbne : b ≠ []) (hbc : ',' ∉ b)
    (hkne : k ≠ []) (htb : goTrimSpace b = b) (htk : goTrimSpace k = k) :
    parseStoredRef (some (encodeRef b k)) = some (b, k)
    ∧ ∀ b' k' : GoStr, ',' ∈ b' →
        parseStoredRef (some (encodeRef b' k')) ≠ some (b', k') :=
  ⟨parseStoredRef_encode hbne hbc hkne htb htk,
   fun _ _ hb' => parseStoredRef_comma_bucket hb'⟩

/-- claim C8, witness: the amended round trip at bucket "b" and key "k". -/
theorem claim_C8_witness :
    parseStoredRef (some (encodeRef "b".data "k".data))
      = some ("b".data, "k".data) :=
  (claim_C8_amended "b".data "k".data (by decide) (by decide) (by decide)
    (by decide) (by decide)).1

/-! ### Claim C7: error behaviour of the reference materializer -/

/-- Modelled from the claim's words only, for comparison with the code: a
stored reference is malformed when it is absent, blank (whitespace-only),
contains no comma separator, or its location or key component (the parts
around the first comma) is empty or whitespace-only. -/
def RefMalformedSpec : Option GoStr → Prop
  | none => True
  | some url =>
    goTrimSpace url = [] ∨ ',' ∉ url
      ∨ ∃ p0 p1, splitFirstComma url = some (p0, p1)
          ∧ (goTrimSpace p0 = [] ∨ goTrimSpace p1 = [])

/-- The code's parser rejects a reference exactly when it is malformed in
the sense the claim enumerates. -/
theorem parseStoredRef_eq_none_iff (url? : Option GoStr) :
    parseStoredRef url? = none ↔ RefMalformedSpec url? := by
  cases url? with
  | none => simp [parseStoredRef, RefMalformedSpec]
  | some url =>
    simp only [parseStoredRef, RefMalformedSpec]
    by_cases h0 : goTrimSpace url = []
    · simp [h0]
    · rw [if_neg h0]
      cases hsplit : splitFirstComma url with
      | none =>
        have hnc : ',' ∉ url := splitFirstComma_eq_none_iff.mp hsplit
        simp [h0, hnc, hsplit]
      | some p =>
        obtain ⟨p0, p1⟩ := p
        have hc : ',' ∈ url := by
          by_contra hnc
          rw [splitFirstComma_eq_none_iff.mpr hnc] at hsplit
          cases hsplit
        by_cases hemp : goTrimSpace p0 = [] ∨ goTrimSpace p1 = []
        · simp only [hsplit, if_pos hemp, true_iff]
          exact Or.inr (Or.inr ⟨p0, p1, rfl, hemp⟩)
        · simp only [hsplit, if_neg hemp]
          constructor
          · intro habs
            exact Option.noConfusion habs
          · rintro (h | h | ⟨q0, q1, hq, hqe⟩)
            · exact absurd h h0
            · exact absurd hc h
            · simp only [Option.some.injEq, Prod.mk.injEq] at hq
              obtain ⟨rfl, rfl⟩ := hq
              exact absurd hqe hemp

/-- claim C7: the reference materializer errs exactly when the stored
reference is malformed in the enumerated sense or when the signing call
fails on the parsed components, and in every error case the returned
record is the input record unchanged. -/
theorem claim_C7 (presign : GoStr → GoStr → Option GoStr) (video : Video) :
    (∀ v, dbVideoToSignedVideo presign video = .err v → v = video)
    ∧ ((∃ v, dbVideoToSignedVideo presign video = .err v) ↔
        (RefMalformedSpec video.videoURL
          ∨ ∃ b k, parseStoredRef video.videoURL = some (b, k)
              ∧ presign b k = none))
    ∧ (RefMalformedSpec video.videoURL ↔ parseStoredRef video.videoURL = none) := by
  refine ⟨?_, ?_, (parseStoredRef_eq_none_iff video.videoURL).symm⟩
  · intro v hv
    unfold dbVideoToSignedVideo at hv
    split at hv
    · cases hv
      rfl
    · split at hv
      · cases hv
        rfl
      · cases hv
  · cases hp : parseStoredRef video.videoURL with
    | none =>
      constructor
      · intro _
        exact Or.inl ((parseStoredRef_eq_none_iff video.videoURL).mp hp)
      · intro _
        refine ⟨video, ?_⟩
        unfold dbVideoToSignedVideo
        rw [hp]
    | some p =>
      obtain ⟨b, k⟩ := p
      cases hps : presign b k with
      | none =>
        constructor
        · intro _
          exact Or.inr ⟨b, k, rfl, hps⟩
        · intro _
          refine ⟨video, ?_⟩
          simp only [dbVideoToSignedVideo, hp, hps]
      | some u =>
        constructor
        · rintro ⟨v, hv⟩
          simp only [dbVideoToSignedVideo, hp, hps] at hv
          exact SignOutcome.noConfusion hv
        · rintro (hmal | ⟨b', k', hb', hps'⟩)
          · rw [(parseStoredRef_eq_none_iff video.videoURL).mpr hmal] at hp
            cases hp
          · simp only [Option.some.injEq, Prod.mk.injEq] at hb'
            obtain ⟨rfl, rfl⟩ := hb'
            rw [hps'] at hps
            cases hps

/-- claim C7, witness: a record with an absent stored reference errs, via
the theorem's characterization. -/
theorem claim_C7_witness :
    ∃ v, dbVideoToSignedVideo (fun _ _ => none) ⟨1, 1, none⟩ = SignOutcome.err v :=
  (claim_C7 (fun _ _ => none) ⟨1, 1, none⟩).2.1.mpr (Or.inl trivial)

/-! ### Handler lemmas -/

/-- The remux model succeeds only with remuxOk true, and then the output
path is the input path with ".processing" appended. -/
theorem processVideoForFastStart_eq_some {r : Bool} {p q : GoStr}
    (h : processVideoForFastStart r p = some q) :
    r = true ∧ q = p ++ procSuffix := by
  cases r with
  | false => simp [processVideoForFastStart] at h
  | true =>
    simp only [processVideoForFastStart, if_true] at h
    exact ⟨rfl, (Option.some.inj h).symm⟩

/-- Appending the non-empty ".processing" suffix changes the path. -/
theorem append_procSuffix_ne (t : GoStr) : t ++ procSuffix ≠ t := by
  intro h
  have hl := congrArg List.length h
  rw [List.length_append] at hl
  have hp : 0 < procSuffix.length := by decide
  omega

/-- When every step succeeds, the handler returns 200 with the signed
record and the full trace: stage, remux, upload of the processed artifact,
one metadata update with the comma encoding, then cleanup in reverse
creation order. -/
theorem handler_success (cfg : Cfg) (env : Env) (vid : Nat) (tok : GoStr)
    (uid : Nat) (video : Video) (tmp : GoStr) (rnd : List Nat) (sv : Video)
    (h1 : env.videoIDParse = some vid)
    (h2 : env.bearerToken = some tok)
    (h3 : env.jwtUserID = some uid)
    (h4 : env.dbVideo = some video)
    (h5 : video.id ≠ 0)
    (h6 : video.userID = uid)
    (h7 : env.parseFormOk = true)
    (h8 : env.formFileOk = true)
    (h9 : env.mediaParse = some mp4Str)
    (h10 : env.tempPath = some tmp)
    (h11 : env.copyOk = true)
    (h12 : env.seekOk = true)
    (h13 : env.remuxOk = true)
    (h14 : env.openProcessedOk = true)
    (h15 : env.randBytes = some rnd)
    (h16 : env.putOk = true)
    (h17 : env.updateOk = true)
    (h18 : dbVideoToSignedVideo env.presign
      (withURL video (encodeRef cfg.s3Bucket (deriveS3Key env.probeStreams rnd)))
        = .ok sv) :
    handlerUploadVideo cfg env =
      ⟨200,
       [.createTemp tmp, .writeFile (tmp ++ procSuffix),
        .putObject cfg.s3Bucket (deriveS3Key env.probeStreams rnd)
          (tmp ++ procSuffix) mp4Str,
        .dbUpdate (withURL video
          (encodeRef cfg.s3Bucket (deriveS3Key env.probeStreams rnd))),
        .removeFile (tmp ++ procSuffix), .removeFile tmp],
       some sv⟩ := by
  have hne : mp4Str ≠ [] := by decide
  unfold handlerUploadVideo
  rw [h1, h2, h3, h4, h9, h10]
  simp [h5, h6, h7, h8, h11, h12, h13, h14, h15, h16, h17, h18, hne,
    processVideoForFastStart]

/-! ### Claim C3: disallowed content type rejected before staging -/

/-- claim C3: when a request passes identification, authentication,
ownership and form extraction but its declared content type fails to parse
or parses to anything other than "video/mp4", the handler responds 400
having performed no side effect at all; in particular no temporary file is
created. -/
theorem claim_C3 (cfg : Cfg) (env : Env) (vid : Nat) (tok : GoStr)
    (uid : Nat) (video : Video)
    (h1 : env.videoIDParse = some vid)
    (h2 : env.bearerToken = some tok)
    (h3 : env.jwtUserID = some uid)
    (h4 : env.dbVideo = some video)
    (h5 : video.id ≠ 0)
    (h6 : video.userID = uid)
    (h7 : env.parseFormOk = true)
    (h8 : env.formFileOk = true)
    (h9 : ∀ mt, env.mediaParse = some mt → mt ≠ mp4Str) :
    (handlerUploadVideo cfg env).status = 400
    ∧ (handlerUploadVideo cfg env).events = []
    ∧ ∀ p, Event.createTemp p ∉ (handlerUploadVideo cfg env).events := by
  have key : handlerUploadVideo cfg env = ⟨400, [], none⟩ := by
    unfold handlerUploadVideo
    rw [h1, h2, h3, h4]
    cases hm : env.mediaParse with
    | none => simp [h5, h6, h7, h8]
    | some mt =>
      have hnmp := h9 mt hm
      by_cases hemp : mt = []
      · simp [h5, h6, h7, h8, hemp]
      · simp [h5, h6, h7, h8, hemp, hnmp]
  rw [key]
  exact ⟨rfl, rfl, fun p => by simp⟩

/-! ### A case analysis of the handler trace -/

/-- The trace of a run that failed at the upload step or later but before
the metadata update. -/
def putTrace (cfg : Cfg) (env : Env) (tmp : GoStr) (rnd : List Nat) : List Event :=
  [Event.createTemp tmp, Event.writeFile (tmp ++ procSuffix),
   Event.putObject cfg.s3Bucket (deriveS3Key env.probeStreams rnd)
     (tmp ++ procSuffix) mp4Str,
   Event.removeFile (tmp ++ procSuffix), Event.removeFile tmp]

/-- The trace of a run that reached the metadata update. -/
def putUpdTrace (cfg : Cfg) (env : Env) (video : Video) (tmp : GoStr)
    (rnd : List Nat) : List Event :=
  [Event.createTemp tmp, Event.writeFile (tmp ++ procSuffix),
   Event.putObject cfg.s3Bucket (deriveS3Key env.probeStreams rnd)
     (tmp ++ procSuffix) mp4Str,
   Event.dbUpdate (withURL video
     (encodeRef cfg.s3Bucket (deriveS3Key env.probeStreams rnd))),
   Event.removeFile (tmp ++ procSuffix), Event.removeFile tmp]

/-- Every run's trace is one of four shapes: nothing; staged original only;
staged original plus remuxed artifact; or one of the two upload traces —
each with cleanup of what was created, and uploads only after a
successful remux. -/
theorem handler_trace_cases (cfg : Cfg) (env : Env) :
    (handlerUploadVideo cfg env).events = []
    ∨ (∃ tmp, env.tempPath = some tmp
        ∧ (handlerUploadVideo cfg env).events
            = [Event.createTemp tmp, Event.removeFile tmp])
    ∨ (∃ tmp, env.tempPath = some tmp ∧ env.remuxOk = true
        ∧ (handlerUploadVideo cfg env).events
            = [Event.createTemp tmp, Event.writeFile (tmp ++ procSuffix),
               Event.removeFile (tmp ++ procSuffix), Event.removeFile tmp])
    ∨ (∃ tmp rnd video, env.tempPath = some tmp ∧ env.remuxOk = true
        ∧ env.randBytes = some rnd ∧ env.dbVideo = some video
        ∧ ((handlerUploadVideo cfg env).events = putTrace cfg env tmp rnd
           ∨ (handlerUploadVideo cfg env).events
               = putUpdTrace cfg env video tmp rnd)) := by
  obtain ⟨vip, bt, ju, dbv, pf, ff, mp, tp, cp, sk, rx, op, rb, ps, pu, uo, pre⟩ := env
  cases vip with
  | none => exact Or.inl rfl
  | some vid =>
  cases bt with
  | none => exact Or.inl rfl
  | some tok =>
  cases ju with
  | none => exact Or.inl rfl
  | some uid =>
  cases dbv with
  | none => exact Or.inl rfl
  | some video =>
  by_cases hid : video.id = 0
  · refine Or.inl ?_
    unfold handlerUploadVideo
    dsimp only
    rw [if_pos hid]
  · by_cases hown : video.userID = uid
    · cases pf with
      | false =>
        refine Or.inl ?_
        unfold handlerUploadVideo
        dsimp only
        rw [if_neg hid, if_neg (fun hne => hne hown)]
        rfl
      | true =>
        cases ff with
        | false =>
          refine Or.inl ?_
          unfold handlerUploadVideo
          dsimp only
          rw [if_neg hid, if_neg (fun hne => hne hown)]
          rfl
        | true =>
          cases mp with
          | none =>
            refine Or.inl ?_
            unfold handlerUploadVideo
            dsimp only
            rw [if_neg hid, if_neg (fun hne => hne hown)]
            rfl
          | some mt =>
            by_cases hmt : mt = mp4Str
            · subst hmt
              cases tp with
              | none =>
                refine Or.inl ?_
                unfold handlerUploadVideo
                dsimp only
                rw [if_neg hid, if_neg (fun hne => hne hown)]
                rfl
              | some tmp =>
                cases cp with
                | false =>
                  refine Or.inr (Or.inl ⟨tmp, rfl, ?_⟩)
                  unfold handlerUploadVideo
                  dsimp only
                  rw [if_neg hid, if_neg (fun hne => hne hown)]
                  rfl
                | true =>
                  cases sk with
                  | false =>
                    refine Or.inr (Or.inl ⟨tmp, rfl, ?_⟩)
                    unfold handlerUploadVideo
                    dsimp only
                    rw [if_neg hid, if_neg (fun hne => hne hown)]
                    rfl
                  | true =>
                    cases rx with
                    | false =>
                      refine Or.inr (Or.inl ⟨tmp, rfl, ?_⟩)
                      unfold handlerUploadVideo
                      dsimp only
                      rw [if_neg hid, if_neg (fun hne => hne hown)]
                      rfl
                    | true =>
                      cases op with
                      | false =>
                        refine Or.inr (Or.inr (Or.inl ⟨tmp, rfl, rfl, ?_⟩))
                        unfold handlerUploadVideo
                        dsimp only
                        rw [if_neg hid, if_neg (fun hne => hne hown)]
                        rfl
                      | true =>
                        cases rb with
                        | none =>
                          refine Or.inr (Or.inr (Or.inl ⟨tmp, rfl, rfl, ?_⟩))
                          unfold handlerUploadVideo
                          dsimp only
                          rw [if_neg hid, if_neg (fun hne => hne hown)]
                          rfl
                        | some rnd =>
                          cases pu with
                          | false =>
                            refine Or.inr (Or.inr (Or.inr
                              ⟨tmp, rnd, video, rfl, rfl, rfl, rfl, Or.inl ?_⟩))
                            unfold handlerUploadVideo
                            dsimp only
                            rw [if_neg hid, if_neg (fun hne => hne hown)]
                            rfl
                          | true =>
                            cases uo with
                            | false =>
                              refine Or.inr (Or.inr (Or.inr
                                ⟨tmp, rnd, video, rfl, rfl, rfl, rfl, Or.inr ?_⟩))
                              unfold handlerUploadVideo
                              dsimp only
                              rw [if_neg hid, if_neg (fun hne => hne hown)]
                              rfl
                            | true =>
                              cases hsign : dbVideoToSignedVideo pre
                                  (withURL video (encodeRef cfg.s3Bucket
                                    (deriveS3Key ps rnd))) with
                              | err v =>
                                refine Or.inr (Or.inr (Or.inr
                                  ⟨tmp, rnd, video, rfl, rfl, rfl, rfl, Or.inr ?_⟩))
                                unfold handlerUploadVideo
                                dsimp only
                                rw [if_neg hid, if_neg (fun hne => hne hown), hsign]
                                rfl
                              | ok sv =>
                                refine Or.inr (Or.inr (Or.inr
                                  ⟨tmp, rnd, video, rfl, rfl, rfl, rfl, Or.inr ?_⟩))
                                unfold handlerUploadVideo
                                dsimp only
                                rw [if_neg hid, if_neg (fun hne => hne hown), hsign]
                                rfl
            · by_cases hE : mt = []
              · refine Or.inl ?_
                unfold handlerUploadVideo
                dsimp only
                rw [if_neg hid, if_neg (fun hne => hne hown), if_pos hE]
                rfl
              · refine Or.inl ?_
                unfold handlerUploadVideo
                dsimp only
                rw [if_neg hid, if_neg (fun hne => hne hown), if_neg hE,
                  if_pos hmt]
                rfl
    · refine Or.inl ?_
      unfold handlerUploadVideo
      dsimp only
      rw [if_neg hid, if_pos hown]

/-! ### Claim C4: staged artifacts are removed on every exit path -/

/-- claim C4: on every execution of the handler, in every environment, the
files removed are exactly the files created, removed in reverse creation
order; in particular every staged artifact the run created is removed
before the handler returns. -/
theorem claim_C4 (cfg : Cfg) (env : Env) :
    removedFiles (handlerUploadVideo cfg env).events
      = (createdFiles (handlerUploadVideo cfg env).events).reverse := by
  rcases handler_trace_cases cfg env with h | ⟨tmp, _, h⟩ | ⟨tmp, _, _, h⟩ |
    ⟨tmp, rnd, video, _, _, _, _, h | h⟩ <;> rw [h]
  all_goals rfl

/-! ### Claim C5: upload only after remux, and only of the remuxed file -/

/-- claim C5: an upload call occurs only in runs whose remux step
succeeded; every upload call's body is the remuxed artifact (the staged
original's path with ".processing" appended) and never the staged original
itself; and when the pipeline reaches the remux step and remux fails, the
handler returns 500 with no upload call made. -/
theorem claim_C5 (cfg : Cfg) (env : Env) :
    (env.remuxOk = false → putCalls (handlerUploadVideo cfg env).events = [])
    ∧ (∀ pc ∈ putCalls (handlerUploadVideo cfg env).events,
        env.remuxOk = true
        ∧ ∃ tmp, env.tempPath = some tmp
            ∧ pc.2.2.1 = tmp ++ procSuffix ∧ pc.2.2.1 ≠ tmp)
    ∧ (∀ vid tok uid video tmp,
        env.videoIDParse = some vid → env.bearerToken = some tok →
        env.jwtUserID = some uid → env.dbVideo = some video →
        video.id ≠ 0 → video.userID = uid →
        env.parseFormOk = true → env.formFileOk = true →
        env.mediaParse = some mp4Str → env.tempPath = some tmp →
        env.copyOk = true → env.seekOk = true → env.remuxOk = false →
        (handlerUploadVideo cfg env).status = 500
          ∧ putCalls (handlerUploadVideo cfg env).events = []) := by
  refine ⟨?_, ?_, ?_⟩
  · intro hr
    rcases handler_trace_cases cfg env with h | ⟨tmp, _, h⟩ | ⟨tmp, _, htrue, h⟩ |
      ⟨tmp, rnd, video, _, htrue, _, _, h | h⟩
    · rw [h]
      rfl
    · rw [h]
      rfl
    · exact absurd htrue (by simp [hr])
    · exact absurd htrue (by simp [hr])
    · exact absurd htrue (by simp [hr])
  · intro pc hpc
    rcases handler_trace_cases cfg env with h | ⟨tmp, _, h⟩ | ⟨tmp, _, _, h⟩ |
      ⟨tmp, rnd, video, htp, hrx, _, _, h | h⟩
    · rw [h] at hpc
      exact absurd hpc (by simp [putCalls])
    · rw [h] at hpc
      exact absurd hpc (by simp [putCalls])
    · rw [h] at hpc
      exact absurd hpc (by simp [putCalls])
    · rw [h] at hpc
      have hred : putCalls (putTrace cfg env tmp rnd)
          = [(cfg.s3Bucket, deriveS3Key env.probeStreams rnd,
              tmp ++ procSuffix, mp4Str)] := rfl
      rw [hred, List.mem_singleton] at hpc
      subst hpc
      exact ⟨hrx, tmp, htp, rfl, append_procSuffix_ne tmp⟩
    · rw [h] at hpc
      have hred : putCalls (putUpdTrace cfg env video tmp rnd)
          = [(cfg.s3Bucket, deriveS3Key env.probeStreams rnd,
              tmp ++ procSuffix, mp4Str)] := rfl
      rw [hred, List.mem_singleton] at hpc
      subst hpc
      exact ⟨hrx, tmp, htp, rfl, append_procSuffix_ne tmp⟩
  · intro vid tok uid video tmp h1 h2 h3 h4 h5 h6 h7 h8 h9 h10 h11 h12 hr
    have hne : mp4Str ≠ [] := by decide
    have key : handlerUploadVideo cfg env =
        ⟨500, [.createTemp tmp, .removeFile tmp], none⟩ := by
      unfold handlerUploadVideo
      rw [h1, h2, h3, h4, h9, h10]
      simp [h5, h6, h7, h8, h11, h12, hr, hne, processVideoForFastStart]
    rw [key]
    exact ⟨rfl, rfl⟩

/-! ### Concrete configuration and environments for the witnesses -/

/-- A concrete configuration. -/
def envCfg : Cfg := ⟨"bkt".data⟩

/-- A concrete environment in which every step succeeds. -/
def envHappy : Env where
  videoIDParse := some 1
  bearerToken := some "t".data
  jwtUserID := some 7
  dbVideo := some ⟨1, 7, none⟩
  parseFormOk := true
  formFileOk := true
  mediaParse := some mp4Str
  tempPath := some "tmp".data
  copyOk := true
  seekOk := true
  remuxOk := true
  openProcessedOk := true
  randBytes := some (List.replicate 32 0)
  probeStreams := none
  putOk := true
  updateOk := true
  presign := fun _ _ => some "signed".data

/-- The all-success environment except that ffmpeg fails. -/
def envRemuxFail : Env := { envHappy with remuxOk := false }

/-- claim C5, witness: a run that reaches remux and fails there: 500 and
no upload call. -/
theorem claim_C5_witness :
    (handlerUploadVideo envCfg envRemuxFail).status = 500
    ∧ putCalls (handlerUploadVideo envCfg envRemuxFail).events = [] :=
  (claim_C5 envCfg envRemuxFail).2.2 1 "t".data 7 ⟨1, 7, none⟩ "tmp".data
    rfl rfl rfl rfl (by decide) rfl rfl rfl rfl rfl rfl rfl rfl

/-! ### Decidability of beginsWith -/

instance (p s : GoStr) : Decidable (beginsWith p s) :=
  inferInstanceAs (Decidable (s.take p.length = p))

/-- A list begins with its own prefix. -/
theorem beginsWith_append (p rest : GoStr) : beginsWith p (p ++ rest) := by
  unfold beginsWith
  exact List.take_left p rest

/-! ### Key-prefix lemmas (claims C1, C6, C10) -/

/-- The chosen key prefix is always one of the three fixed strings. -/
theorem keyPrefixOf_mem (probe : Option (List FfStream)) :
    keyPrefixOf probe = strLandscape ∨ keyPrefixOf probe = strPortrait
      ∨ keyPrefixOf probe = strOther := by
  unfold keyPrefixOf
  cases getVideoAspectRatio probe with
  | none => exact Or.inr (Or.inr rfl)
  | some a =>
    dsimp only
    by_cases ha1 : a = str169
    · exact Or.inl (by rw [if_pos ha1])
    · by_cases ha2 : a = str916
      · exact Or.inr (Or.inl (by rw [if_neg ha1, if_pos ha2]))
      · exact Or.inr (Or.inr (by rw [if_neg ha1, if_neg ha2]))

/-- When inspection fails or yields no usable geometry, the prefix falls
back to "other". -/
theorem keyPrefixOf_of_aspect_none {probe : Option (List FfStream)}
    (h : getVideoAspectRatio probe = none) : keyPrefixOf probe = strOther := by
  unfold keyPrefixOf
  rw [h]

/-! ### Claim C1: the key prefix set and the 1920x1080 scenario -/

/-- claim C1, counterexample: the code's classification prefixes are
"landscape", "portrait" and "other", not "wide", "tall" and "other": the
key derived for geometry 1920x1080 begins with "landscape/", not with
"wide/". -/
theorem claim_C1_counterexample :
    keyPrefixOf (some [⟨1920, 1080⟩]) = strLandscape
    ∧ ¬ beginsWith "wide/".data
        (deriveS3Key (some [⟨1920, 1080⟩]) (List.replicate 32 0))
    ∧ beginsWith "landscape/".data
        (deriveS3Key (some [⟨1920, 1080⟩]) (List.replicate 32 0)) := by
  have hp : keyPrefixOf (some [⟨1920, 1080⟩]) = strLandscape := by
    unfold keyPrefixOf
    rw [aspect_1920_1080]
    rfl
  refine ⟨hp, ?_, ?_⟩
  · unfold deriveS3Key
    rw [hp]
    decide
  · unfold deriveS3Key
    rw [hp]
    decide

/-- claim C1, amended: for every successful upload the stored reference is
the bucket and a key of the form {classification}/{hex}.mp4 whose
classification prefix is one of {landscape, portrait, other} (not
{wide, tall, other}); an upload whose selected stream has geometry
1920x1080 produces a key beginning with "landscape/". -/
theorem claim_C1_amended (cfg : Cfg) (env : Env) (vid : Nat) (tok : GoStr)
    (uid : Nat) (video : Video) (tmp : GoStr) (rnd : List Nat) (sv : Video)
    (h1 : env.videoIDParse = some vid)
    (h2 : env.bearerToken = some tok)
    (h3 : env.jwtUserID = some uid)
    (h4 : env.dbVideo = some video)
    (h5 : video.id ≠ 0)
    (h6 : video.userID = uid)
    (h7 : env.parseFormOk = true)
    (h8 : env.formFileOk = true)
    (h9 : env.mediaParse = some mp4Str)
    (h10 : env.tempPath = some tmp)
    (h11 : env.copyOk = true)
    (h12 : env.seekOk = true)
    (h13 : env.remuxOk = true)
    (h14 : env.openProcessedOk = true)
    (h15 : env.randBytes = some rnd)
    (h16 : env.putOk = true)
    (h17 : env.updateOk = true)
    (h18 : dbVideoToSignedVideo env.presign
      (withURL video (encodeRef cfg.s3Bucket (deriveS3Key env.probeStreams rnd)))
        = .ok sv) :
    (handlerUploadVideo cfg env).status = 200
    ∧ dbUpdateURLs (handlerUploadVideo cfg env).events
        = [some (encodeRef cfg.s3Bucket (deriveS3Key env.probeStreams rnd))]
    ∧ deriveS3Key env.probeStreams rnd
        = keyPrefixOf env.probeStreams ++ '/' :: (hexEncode rnd ++ dotMp4)
    ∧ (keyPrefixOf env.probeStreams = strLandscape
        ∨ keyPrefixOf env.probeStreams = strPortrait
        ∨ keyPrefixOf env.probeStreams = strOther)
    ∧ (∀ ss, env.probeStreams = some ss →
        firstValidStream ss = some ⟨1920, 1080⟩ →
        beginsWith (strLandscape ++ ['/']) (deriveS3Key env.probeStreams rnd)) := by
  have hkey := handler_success cfg env vid tok uid video tmp rnd sv h1 h2 h3
    h4 h5 h6 h7 h8 h9 h10 h11 h12 h13 h14 h15 h16 h17 h18
  rw [hkey]
  refine ⟨rfl, rfl, rfl, keyPrefixOf_mem env.probeStreams, ?_⟩
  intro ss hss hv
  have haspect : getVideoAspectRatio env.probeStreams = some str169 := by
    rw [hss]
    simp only [getVideoAspectRatio, hv]
    norm_num [goAbs]
  have hp : keyPrefixOf env.probeStreams = strLandscape := by
    unfold keyPrefixOf
    rw [haspect]
    rfl
  unfold deriveS3Key
  rw [hp, show strLandscape ++ '/' :: (hexEncode rnd ++ dotMp4)
    = (strLandscape ++ ['/']) ++ (hexEncode rnd ++ dotMp4) from by simp]
  exact beginsWith_append _ _

/-- The all-success environment with a 1920x1080 stream reported by the
inspection step. -/
def envWide : Env := { envHappy with probeStreams := some [⟨1920, 1080⟩] }

/-- claim C1, witness: the amended theorem at the concrete 1920x1080
environment. -/
theorem claim_C1_witness :
    (handlerUploadVideo envCfg envWide).status = 200
    ∧ beginsWith (strLandscape ++ ['/'])
        (deriveS3Key envWide.probeStreams (List.replicate 32 0)) := by
  have hk : deriveS3Key envWide.probeStreams (List.replicate 32 0)
      = strLandscape ++ '/' :: (hexEncode (List.replicate 32 0) ++ dotMp4) := by
    unfold deriveS3Key
    rw [show keyPrefixOf envWide.probeStreams = strLandscape from by
      unfold keyPrefixOf
      rw [show envWide.probeStreams = some [⟨1920, 1080⟩] from rfl,
        aspect_1920_1080]
      rfl]
  have h := claim_C1_amended envCfg envWide 1 "t".data 7 ⟨1, 7, none⟩
    "tmp".data (List.replicate 32 0) (withURL ⟨1, 7, none⟩ "signed".data)
    rfl rfl rfl rfl (by decide) rfl rfl rfl rfl rfl rfl rfl rfl rfl rfl rfl rfl
    (by rw [show envWide.probeStreams = some [⟨1920, 1080⟩] from rfl] at hk ⊢
        rw [hk]
        decide)
  exact ⟨h.1, h.2.2.2.2 [⟨1920, 1080⟩] rfl (by decide)⟩

/-! ### Claim C6: inspection failure degrades to "other" and never aborts -/

/-- claim C6: when inspection fails outright or yields no stream with
strictly positive width and height, and every other step succeeds, the run
still reaches publication with the "other/" key prefix and returns 200:
the inspection failure is never surfaced as a request error. -/
theorem claim_C6 (cfg : Cfg) (env : Env) (vid : Nat) (tok : GoStr)
    (uid : Nat) (video : Video) (tmp : GoStr) (rnd : List Nat) (sv : Video)
    (h1 : env.videoIDParse = some vid)
    (h2 : env.bearerToken = some tok)
    (h3 : env.jwtUserID = some uid)
    (h4 : env.dbVideo = some video)
    (h5 : video.id ≠ 0)
    (h6 : video.userID = uid)
    (h7 : env.parseFormOk = true)
    (h8 : env.formFileOk = true)
    (h9 : env.mediaParse = some mp4Str)
    (h10 : env.tempPath = some tmp)
    (h11 : env.copyOk = true)
    (h12 : env.seekOk = true)
    (h13 : env.remuxOk = true)
    (h14 : env.openProcessedOk = true)
    (h15 : env.randBytes = some rnd)
    (h16 : env.putOk = true)
    (h17 : env.updateOk = true)
    (hprobe : env.probeStreams = none
      ∨ ∃ ss, env.probeStreams = some ss ∧ firstValidStream ss = none)
    (h18 : dbVideoToSignedVideo env.presign
      (withURL video (encodeRef cfg.s3Bucket (deriveS3Key env.probeStreams rnd)))
        = .ok sv) :
    (handlerUploadVideo cfg env).status = 200
    ∧ putCalls (handlerUploadVideo cfg env).events
        = [(cfg.s3Bucket, strOther ++ '/' :: (hexEncode rnd ++ dotMp4),
            tmp ++ procSuffix, mp4Str)] := by
  have haspect : getVideoAspectRatio env.probeStreams = none := by
    rcases hprobe with hnone | ⟨ss, hss, hfv⟩
    · rw [hnone]
      rfl
    · rw [hss]
      simp only [getVideoAspectRatio, hfv]
  have hder : deriveS3Key env.probeStreams rnd
      = strOther ++ '/' :: (hexEncode rnd ++ dotMp4) := by
    unfold deriveS3Key
    rw [keyPrefixOf_of_aspect_none haspect]
  have hkey := handler_success cfg env vid tok uid video tmp rnd sv h1 h2 h3
    h4 h5 h6 h7 h8 h9 h10 h11 h12 h13 h14 h15 h16 h17 h18
  rw [hkey, hder]
  exact ⟨rfl, rfl⟩

/-- claim C6, witness: the concrete all-success environment reports no
usable inspection output and still publishes under "other/" with 200. -/
theorem claim_C6_witness :
    (handlerUploadVideo envCfg envHappy).status = 200
    ∧ putCalls (handlerUploadVideo envCfg envHappy).events
        = [(envCfg.s3Bucket,
            strOther ++ '/' :: (hexEncode (List.replicate 32 0) ++ dotMp4),
            "tmp".data ++ procSuffix, mp4Str)] :=
  claim_C6 envCfg envHappy 1 "t".data 7 ⟨1, 7, none⟩ "tmp".data
    (List.replicate 32 0) (withURL ⟨1, 7, none⟩ "signed".data)
    rfl rfl rfl rfl (by decide) rfl rfl rfl rfl rfl rfl rfl rfl rfl rfl rfl rfl
    (Or.inl rfl) (by decide)

/-! ### Claim C9: the signed URL is returned, never persisted -/

/-- A successful materialization means the reference parsed and the signer
produced the URL substituted in the returned record. -/
theorem dbVideoToSignedVideo_ok {presign : GoStr → GoStr → Option GoStr}
    {v sv : Video} (h : dbVideoToSignedVideo presign v = .ok sv) :
    ∃ b k u, parseStoredRef v.videoURL = some (b, k) ∧ presign b k = some u
      ∧ sv = { v with videoURL := some u } := by
  unfold dbVideoToSignedVideo at h
  split at h
  · cases h
  · split at h
    · cases h
    · obtain rfl := (SignOutcome.ok.inj h).symm
      exact ⟨_, _, _, by assumption, by assumption, rfl⟩

/-- claim C9: in a fully successful run the only value ever persisted to
the metadata store is the comma-joined bucket,key encoding; the signed URL
appears only in the response body, whose URL is exactly what the signer
returned for the parsed components of that encoding. -/
theorem claim_C9 (cfg : Cfg) (env : Env) (vid : Nat) (tok : GoStr)
    (uid : Nat) (video : Video) (tmp : GoStr) (rnd : List Nat) (sv : Video)
    (h1 : env.videoIDParse = some vid)
    (h2 : env.bearerToken = some tok)
    (h3 : env.jwtUserID = some uid)
    (h4 : env.dbVideo = some video)
    (h5 : video.id ≠ 0)
    (h6 : video.userID = uid)
    (h7 : env.parseFormOk = true)
    (h8 : env.formFileOk = true)
    (h9 : env.mediaParse = some mp4Str)
    (h10 : env.tempPath = some tmp)
    (h11 : env.copyOk = true)
    (h12 : env.seekOk = true)
    (h13 : env.remuxOk = true)
    (h14 : env.openProcessedOk = true)
    (h15 : env.randBytes = some rnd)
    (h16 : env.putOk = true)
    (h17 : env.updateOk = true)
    (h18 : dbVideoToSignedVideo env.presign
      (withURL video (encodeRef cfg.s3Bucket (deriveS3Key env.probeStreams rnd)))
        = .ok sv) :
    (handlerUploadVideo cfg env).status = 200
    ∧ dbUpdateURLs (handlerUploadVideo cfg env).events
        = [some (encodeRef cfg.s3Bucket (deriveS3Key env.probeStreams rnd))]
    ∧ (handlerUploadVideo cfg env).body = some sv
    ∧ (∀ u, sv.videoURL = some u →
        ∃ b k, parseStoredRef (some (encodeRef cfg.s3Bucket
            (deriveS3Key env.probeStreams rnd))) = some (b, k)
          ∧ env.presign b k = some u) := by
  have hkey := handler_success cfg env vid tok uid video tmp rnd sv h1 h2 h3
    h4 h5 h6 h7 h8 h9 h10 h11 h12 h13 h14 h15 h16 h17 h18
  rw [hkey]
  refine ⟨rfl, rfl, rfl, ?_⟩
  intro u hu
  obtain ⟨b, k, u2, hparse, hpre, hsv⟩ := dbVideoToSignedVideo_ok h18
  subst hsv
  simp only [Option.some.injEq] at hu
  subst hu
  exact ⟨b, k, hparse, hpre⟩

/-- claim C9, witness: the theorem at the concrete all-success
environment. -/
theorem claim_C9_witness :
    (handlerUploadVideo envCfg envHappy).status = 200
    ∧ dbUpdateURLs (handlerUploadVideo envCfg envHappy).events
        = [some (encodeRef envCfg.s3Bucket
            (deriveS3Key envHappy.probeStreams (List.replicate 32 0)))] := by
  have h := claim_C9 envCfg envHappy 1 "t".data 7 ⟨1, 7, none⟩ "tmp".data
    (List.replicate 32 0) (withURL ⟨1, 7, none⟩ "signed".data)
    rfl rfl rfl rfl (by decide) rfl rfl rfl rfl rfl rfl rfl rfl rfl rfl rfl rfl
    (by decide)
  exact ⟨h.1, h.2.1⟩

/-! ### Claim C3 witness -/

/-- The all-success environment with a declared content type that parses
to "image/png" rather than "video/mp4". -/
def envBadCT : Env := { envHappy with mediaParse := some "image/png".data }

/-- claim C3, witness: the concrete environment with content type
image/png is rejected with 400 and an empty effect trace. -/
theorem claim_C3_witness :
    (handlerUploadVideo envCfg envBadCT).status = 400
    ∧ (handlerUploadVideo envCfg envBadCT).events = [] := by
  have h := claim_C3 envCfg envBadCT 1 "t".data 7 ⟨1, 7, none⟩
    rfl rfl rfl rfl (by decide) rfl rfl rfl
    (fun mt hmt => by
      rw [show envBadCT.mediaParse = some "image/png".data from rfl] at hmt
      obtain rfl := Option.some.inj hmt
      decide)
  exact ⟨h.1, h.2.1⟩

/-! ### Claim C10: shape of derived keys and unambiguity of the encoding -/

/-- Each hexadecimal digit the encoder can emit is one of the sixteen
lowercase hexadecimal characters. -/
theorem hexDigit_mem_of_lt {m : Nat} (h : m < 16) : hexDigit m ∈ hexChars := by
  interval_cases m <;> decide

/-- Every character of a hex encoding is a lowercase hexadecimal digit. -/
theorem mem_hexEncode {c : Char} {bs : List Nat} (h : c ∈ hexEncode bs) :
    c ∈ hexChars := by
  induction bs with
  | nil => simp [hexEncode] at h
  | cons b bs ih =>
    simp only [hexEncode, List.map_cons, List.flatten_cons] at h
    rcases List.mem_append.mp h with h1 | h1
    · simp only [hexByte, List.mem_cons, List.not_mem_nil, or_false] at h1
      rcases h1 with rfl | rfl
      · exact hexDigit_mem_of_lt (Nat.mod_lt _ (by decide))
      · exact hexDigit_mem_of_lt (Nat.mod_lt _ (by decide))
    · exact ih h1

/-- A hex encoding has two characters per byte. -/
theorem hexEncode_length (bs : List Nat) :
    (hexEncode bs).length = 2 * bs.length := by
  induction bs with
  | nil => rfl
  | cons b bs ih =>
    simp only [hexEncode, List.map_cons, List.flatten_cons, List.length_append,
      List.length_cons] at ih ⊢
    simp only [hexByte, List.length_cons, List.length_nil]
    omega

/-- A derived key contains exactly one slash: none in the prefix, one as
the separator, none in the hex digits or the extension. -/
theorem count_slash_key (probe : Option (List FfStream)) (rnd : List Nat) :
    List.count '/' (deriveS3Key probe rnd) = 1 := by
  unfold deriveS3Key
  rw [List.count_append]
  have h1 : List.count '/' (keyPrefixOf probe) = 0 := by
    rcases keyPrefixOf_mem probe with hp | hp | hp <;> rw [hp] <;> decide
  have h2 : List.count '/' (hexEncode rnd) = 0 :=
    List.count_eq_zero.mpr (fun hmem => by
      have hc := mem_hexEncode hmem
      revert hc
      decide)
  have h3 : List.count '/' dotMp4 = 0 := by decide
  rw [h1, List.count_cons_self, List.count_append, h2, h3]

/-- A derived key contains no comma. -/
theorem comma_not_mem_key (probe : Option (List FfStream)) (rnd : List Nat) :
    ',' ∉ deriveS3Key probe rnd := by
  intro h
  unfold deriveS3Key at h
  rcases List.mem_append.mp h with h1 | h1
  · rcases keyPrefixOf_mem probe with hp | hp | hp <;> rw [hp] at h1 <;>
      revert h1 <;> decide
  · rcases List.mem_cons.mp h1 with h2 | h2
    · exact absurd h2 (by decide)
    · rcases List.mem_append.mp h2 with h3 | h3
      · have hc := mem_hexEncode h3
        revert hc
        decide
      · revert h3
        decide

/-- The comma-joined encoding is injective on comma-free buckets. -/
theorem encodeRef_inj {b1 b2 k1 k2 : GoStr} (hb1 : ',' ∉ b1) (hb2 : ',' ∉ b2)
    (h : encodeRef b1 k1 = encodeRef b2 k2) : b1 = b2 ∧ k1 = k2 := by
  have h1 := splitFirstComma_append k1 hb1
  have h2 := splitFirstComma_append k2 hb2
  unfold encodeRef at h
  rw [h, h2] at h1
  simp only [Option.some.injEq, Prod.mk.injEq] at h1
  exact ⟨h1.1.symm, h1.2.symm⟩

/-- claim C10: every derived key is {prefix}/{64 lowercase hex}.mp4 with
the prefix one of the three fixed strings, contains exactly one slash and
no comma; and the comma-joined reference encoding is unambiguous for
comma-free bucket names. -/
theorem claim_C10 (probe : Option (List FfStream)) (rnd : List Nat)
    (hlen : rnd.length = 32) :
    (∃ p, (p = strLandscape ∨ p = strPortrait ∨ p = strOther)
        ∧ deriveS3Key probe rnd = p ++ '/' :: (hexEncode rnd ++ dotMp4))
    ∧ (hexEncode rnd).length = 64
    ∧ (∀ c ∈ hexEncode rnd, c ∈ hexChars)
    ∧ List.count '/' (deriveS3Key probe rnd) = 1
    ∧ ',' ∉ deriveS3Key probe rnd
    ∧ (∀ b1 b2 k1 k2 : GoStr, ',' ∉ b1 → ',' ∉ b2 →
        encodeRef b1 k1 = encodeRef b2 k2 → b1 = b2 ∧ k1 = k2) :=
  ⟨⟨keyPrefixOf probe, keyPrefixOf_mem probe, rfl⟩,
   by have := hexEncode_length rnd; omega,
   fun _ hc => mem_hexEncode hc,
   count_slash_key probe rnd,
   comma_not_mem_key probe rnd,
   fun _ _ _ _ hb1 hb2 h => encodeRef_inj hb1 hb2 h⟩

/-- claim C10, witness: the theorem at a concrete 32-byte value and the
"other" classification. -/
theorem claim_C10_witness :
    List.count '/' (deriveS3Key none (List.replicate 32 0)) = 1
    ∧ ',' ∉ deriveS3Key none (List.replicate 32 0) := by
  have h := claim_C10 none (List.replicate 32 0) (by decide)
  exact ⟨h.2.2.2.1, h.2.2.2.2.1⟩

end Tubely
